import Mathlib

set_option maxHeartbeats 1000000

set_option synthInstance.maxHeartbeats 400000

/-!
Verification of the tag storage and indexing engine of `base/database.py`
(the `tag`, `select` and `selectcontents` functions) against its
natural-language specification.

The comment slots, per-location attributes and the two reference indices
are environment collaborators; the serialization codec and the reference
index live in the `internal.comment` module which is not part of the
source tree, so they are modelled from the specification (each such
definition carries a doc comment starting with `Modelled from the spec:`).
All control flow of `tag`/`select`/`selectcontents` is translated from
`base/database.py` directly.  The bounds check
`interface.address.inside(ea)` at the entry of each operation is
modelled as the identity: locations are supplied by the environment and
assumed inside the database's bounds (spec §3).
-/

/-- Text, as held by a comment slot; modelled as a list of characters. -/
abbrev Str := List Char

/-! ### Codec: `internal.comment.encode` / `internal.comment.decode`

Modelled from the spec (§4.1): a self-delimiting wire format packing a
tag mapping into a single text blob.  The concrete byte layout is this
model's own (length-prefixed fields), since the real codec module is not
under `src/`; the spec constrains only its contract (round-trip,
`decode ""` = empty, malformed input decodes to an empty mapping). -/

/-- A scalar tag value: text, integer, boolean, or float (a float is
modelled by its significand/exponent integer pair, since the spec treats
values as opaque serializable data). -/
inductive Atom : Type
  | astr : Str → Atom
  | aint : Int → Atom
  | abool : Bool → Atom
  | afloat : Int → Int → Atom
deriving DecidableEq

/-- A tag value: a scalar or a sequence of scalars (spec §3: "text,
integer, float, boolean, or nested sequence of these"). -/
inductive TagValue : Type
  | atom : Atom → TagValue
  | seq : List Atom → TagValue
deriving DecidableEq

/-- A tag mapping, as an association list from tag-name to value. -/
abbrev TagMap := List (Str × TagValue)

/-- Decimal digit to character. -/
def digitToChar (d : Nat) : Char :=
  match d with
  | 0 => '0' | 1 => '1' | 2 => '2' | 3 => '3' | 4 => '4'
  | 5 => '5' | 6 => '6' | 7 => '7' | 8 => '8' | _ => '9'

/-- Character to decimal digit. -/
def charToDigit (c : Char) : Nat :=
  match c with
  | '0' => 0 | '1' => 1 | '2' => 2 | '3' => 3 | '4' => 4
  | '5' => 5 | '6' => 6 | '7' => 7 | '8' => 8 | _ => 9

/-- Is a decimal digit character. -/
def isDig (c : Char) : Bool :=
  decide ('0' ≤ c) && decide (c ≤ '9')

/-- Little-endian decimal digits of a number (fuel-driven so that the
kernel can evaluate it). -/
def digitsAux : Nat → Nat → List Nat
  | 0, _ => []
  | fuel + 1, n => if n = 0 then [] else n % 10 :: digitsAux fuel (n / 10)

/-- Little-endian decimal digits of `n`. -/
def natDigits (n : Nat) : List Nat := digitsAux n n

/-- Value of a little-endian decimal digit list. -/
def ofDigits10 : List Nat → Nat
  | [] => 0
  | d :: ds => d + 10 * ofDigits10 ds

/-- Encoded natural number: little-endian digits terminated by `#`. -/
def encNat (n : Nat) : Str := (natDigits n).map digitToChar ++ ['#']

/-- Parse a `#`-terminated little-endian number, returning the rest. -/
def readNum : Str → Option (Nat × Str)
  | [] => none
  | c :: r =>
    if c = '#' then some (0, r)
    else if isDig c then
      match readNum r with
      | some (n, rest) => some (charToDigit c + 10 * n, rest)
      | none => none
    else none

/-- Encoded text: length prefix followed by the raw characters. -/
def encStr (s : Str) : Str := encNat s.length ++ s

/-- Parse a length-prefixed text field. -/
def readStr (l : Str) : Option (Str × Str) :=
  match readNum l with
  | some (n, r) => if n ≤ r.length then some (r.take n, r.drop n) else none
  | none => none

/-- Encoded integer: sign character followed by its magnitude. -/
def encInt : Int → Str
  | .ofNat n => '+' :: encNat n
  | .negSucc n => '-' :: encNat n

/-- Parse an integer. -/
def readInt : Str → Option (Int × Str)
  | '+' :: r => (readNum r).map (fun p => ((p.1 : Int), p.2))
  | '-' :: r => (readNum r).map (fun p => (Int.negSucc p.1, p.2))
  | _ => none

/-- Encoded scalar: a kind character followed by the payload. -/
def encAtom : Atom → Str
  | .astr s => 's' :: encStr s
  | .aint i => 'i' :: encInt i
  | .abool true => ['b', 'T']
  | .abool false => ['b', 'F']
  | .afloat m e => 'f' :: (encInt m ++ encInt e)

/-- Parse a scalar. -/
def readAtom : Str → Option (Atom × Str)
  | 's' :: r => (readStr r).map (fun p => (.astr p.1, p.2))
  | 'i' :: r => (readInt r).map (fun p => (.aint p.1, p.2))
  | 'b' :: 'T' :: r => some (.abool true, r)
  | 'b' :: 'F' :: r => some (.abool false, r)
  | 'f' :: r =>
    match readInt r with
    | some (m, r2) => (readInt r2).map (fun p => (.afloat m p.1, p.2))
    | none => none
  | _ => none

/-- Encoded value: `a` for a scalar, `q` plus a count for a sequence. -/
def encVal : TagValue → Str
  | .atom a => 'a' :: encAtom a
  | .seq as => 'q' :: (encNat as.length ++ (as.map encAtom).flatten)

/-- Parse `n` consecutive scalars. -/
def readAtoms : Nat → Str → Option (List Atom × Str)
  | 0, l => some ([], l)
  | n + 1, l =>
    match readAtom l with
    | some (a, r) => (readAtoms n r).map (fun p => (a :: p.1, p.2))
    | none => none

/-- Parse a value. -/
def readVal : Str → Option (TagValue × Str)
  | 'a' :: r => (readAtom r).map (fun p => (.atom p.1, p.2))
  | 'q' :: r =>
    match readNum r with
    | some (n, r2) => (readAtoms n r2).map (fun p => (.seq p.1, p.2))
    | none => none
  | _ => none

/-- Encoded mapping entry: key then value. -/
def encEntry (e : Str × TagValue) : Str := encStr e.1 ++ encVal e.2

/-- Parse one mapping entry. -/
def readEntry (l : Str) : Option ((Str × TagValue) × Str) :=
  match readStr l with
  | some (k, r) => (readVal r).map (fun p => ((k, p.1), p.2))
  | none => none

/-- Parse `n` consecutive mapping entries. -/
def readEntries : Nat → Str → Option (TagMap × Str)
  | 0, l => some ([], l)
  | n + 1, l =>
    match readEntry l with
    | some (e, r) => (readEntries n r).map (fun p => (e :: p.1, p.2))
    | none => none

/-- `internal.comment.encode`.  Modelled from the spec: serializes a tag
mapping into a single text blob (entry count followed by the entries). -/
def encode (m : TagMap) : Str := encNat m.length ++ (m.map encEntry).flatten

/-- A well-formed tag mapping: no duplicate keys. -/
def wfTM (m : TagMap) : Prop := (m.map Prod.fst).Nodup

instance (m : TagMap) : Decidable (wfTM m) := List.nodupDecidable _

/-- `internal.comment.decode`.  Modelled from the spec: empty or missing
text decodes to the empty mapping; malformed text (a parse failure,
trailing junk, or duplicate keys) decodes to the empty mapping and is
never an error (`CorruptTagData` is recovered locally, §7). -/
def decode (l : Str) : TagMap :=
  match readNum l with
  | some (n, r) =>
    match readEntries n r with
    | some (m, []) => if wfTM m then m else []
    | _ => []
  | none => []

/-- The comment slot size limit (host bound; exact value immaterial).
Modelled from the spec: encoding that cannot fit fails (§4.1). -/
def slotLimit : Nat := 65536

/-! ### Dictionary operations on tag mappings

These model the Python `dict` operations used by `tag` (`update`,
`setdefault`, item assignment, `pop`, key membership).  Python 2 dicts
are unordered, so any association-list layout with the same lookup
behavior is a faithful model. -/

/-- Dictionary lookup: value of a key, if present. -/
def lookupTM : TagMap → Str → Option TagValue
  | [], _ => none
  | e :: m, key => if e.1 = key then some e.2 else lookupTM m key

/-- Key set of a mapping. -/
def keysTM (m : TagMap) : List Str := m.map Prod.fst

/-- Key membership (`key in dict`). -/
def containsTM (m : TagMap) (k : Str) : Bool := (lookupTM m k).isSome

/-- Keep only the entries whose key satisfies `p` (a dict comprehension
filtering on the key). -/
def filterKeysTM (m : TagMap) (p : Str → Bool) : TagMap := m.filter (fun e => p e.1)

/-- `d1.update(d2)`: entries of `d2` win over entries of `d1`. -/
def updateMap (m1 m2 : TagMap) : TagMap :=
  filterKeysTM m1 (fun k => !(containsTM m2 k)) ++ m2

/-- `dict.pop(key)` / `del dict[key]`: drop the entry for a key. -/
def eraseTM (m : TagMap) (k : Str) : TagMap :=
  filterKeysTM m (fun a => !(decide (a = k)))

/-- `dict[key] = value`. -/
def setTM (m : TagMap) (k : Str) (v : TagValue) : TagMap := (k, v) :: eraseTM m k

/-- `dict.setdefault(key, value)`: insert only if the key is absent. -/
def setdefaultTM (m : TagMap) (k : Str) (v : TagValue) : TagMap :=
  if containsTM m k then m else (k, v) :: m

/-! ### Database state and environment collaborators -/

/-- The observable state the tag engine works on.

`cmt` (indexed by address and the `repeatable` flag) models the host's
two comment slots (`idaapi.get_cmt`/`set_cmt` behind `comment(ea, ...)`),
with `[]` for an absent comment.  `inFunc` models `is_within_function`:
`function.by_address(ea)` succeeds and `function.within(ea)` holds
exactly when the address lies within a function body (modelled from the
spec, §6, since the `function` module is not under `src/`).  `nameAt`,
`nameFlag`, `preAt`, `sufAt` and `colorAt` are the per-location
attributes behind the implicit tags (symbol name plus its listed flag,
extra prefix/suffix lines, display color), held abstractly as tag
values.  `gRefs`/`cRefs` model the Global and Contents reference index
of `internal.comment` as recorded (location, key) pairs, and `gAddrs`
the Global index's `address()` listing; `cIter` models
`internal.comment.contents.iterate()` (function address paired with the
recorded key-set from the per-address cache) and `cLive` the stored
contents blob read by `internal.comment.contents._read`, whose key set
is `internal.comment.contents.name(ea)` — all modelled from the spec
(§4.4) because `internal.comment` is not under `src/`.  `ftag` models
`function.tag(ea)`, the function-scope tag mapping used by `select` for
addresses inside functions. -/
structure DB where
  cmt : Nat → Bool → Str
  inFunc : Nat → Bool
  nameAt : Nat → Option TagValue
  nameFlag : Nat → Bool
  preAt : Nat → Option TagValue
  sufAt : Nat → Option TagValue
  colorAt : Nat → Option TagValue
  gRefs : List (Nat × Str)
  cRefs : List (Nat × Str)
  gAddrs : List Nat
  cIter : List (Nat × List Str)
  cLive : Nat → TagMap
  ftag : Nat → TagMap

/-- The side effects a tag operation performs against the environment:
comment-slot writes, reference-index increments/decrements (`g` for the
Global index, `c` for the Contents index), and the implicit-tag
attribute dispatches. -/
inductive Eff : Type
  | slotWrite : Nat → Bool → Str → Eff
  | ginc : Nat → Str → Eff
  | gdec : Nat → Str → Eff
  | cinc : Nat → Str → Eff
  | cdec : Nat → Str → Eff
  | nameSet : Nat → Option TagValue → Eff
  | preSet : Nat → Option TagValue → Eff
  | sufSet : Nat → Option TagValue → Eff
  | colorSet : Nat → Option TagValue → Eff
deriving DecidableEq

/-- The caller-facing errors raised by the tag store:
`invalidParameter` is `E.InvalidParameterError` (the spec's
`InvalidValue`), `missingTag` is `E.MissingTagError` (the spec's
`TagNotFound`). -/
inductive TagErr : Type
  | invalidParameter
  | missingTag
deriving DecidableEq

/-- Point update of a per-address attribute. -/
def funcUpd {α : Type} (f : Nat → α) (ea : Nat) (v : α) : Nat → α :=
  fun a => if a = ea then v else f a

/-- `comment(ea, text, repeatable=rep)`: write one comment slot. -/
def setCmt (db : DB) (ea : Nat) (rep : Bool) (t : Str) : DB :=
  { db with cmt := fun a r => if a = ea ∧ r = rep then t else db.cmt a r }

/-- Reference-index increment.  Modelled from the spec (§4.4): the
per-key count grows only on the first occurrence of the key at a
location, so the index is the set of recorded (location, key) pairs. -/
def idxInc (l : List (Nat × Str)) (ea : Nat) (key : Str) : List (Nat × Str) :=
  if (ea, key) ∈ l then l else (ea, key) :: l

/-- Reference-index decrement.  Modelled from the spec (§4.4). -/
def idxDec (l : List (Nat × Str)) (ea : Nat) (key : Str) : List (Nat × Str) :=
  l.filter (fun p => !(decide (p = (ea, key))))

/-- The implicit tag `__name__`. -/
def nameKey : Str := "__name__".data

/-- The implicit tag `__color__`. -/
def colorKey : Str := "__color__".data

/-- The implicit tag `__extra_prefix__`. -/
def preKey : Str := "__extra_prefix__".data

/-- The implicit tag `__extra_suffix__`. -/
def sufKey : Str := "__extra_suffix__".data

/-! ### The Tag Store: `database.tag` -/

/-- `tag(ea)` (`base/database.py` lines 1477-1516): return all tags at
`ea` together with whether a slot conflict was logged.  Decodes both
comment slots, logs (flag) when their key sets intersect, merges with
priority to the repeatable slot outside a function and the
non-repeatable slot inside one, then overlays the four implicit tags
with `setdefault`. -/
def tagAll (db : DB) (ea : Nat) : TagMap × Bool :=
  let repeatable := if db.inFunc ea then false else true
  let d1 := decode (db.cmt ea false)
  let d2 := decode (db.cmt ea true)
  let conflict := (keysTM d1).any (fun k => decide (k ∈ keysTM d2))
  let res := if repeatable then updateMap d1 d2 else updateMap d2 d1
  let res := match db.nameAt ea with
    | some nm => if db.nameFlag ea then setdefaultTM res nameKey nm else res
    | none => res
  let res := match db.preAt ea with
    | some v => setdefaultTM res preKey v
    | none => res
  let res := match db.sufAt ea with
    | some v => setdefaultTM res sufKey v
    | none => res
  let res := match db.colorAt ea with
    | some v => setdefaultTM res colorKey v
    | none => res
  (res, conflict)

/-- Replace the Global reference index (an `internal.comment.globals`
update; modelled from the spec). -/
def setGRefs (db : DB) (l : List (Nat × Str)) : DB := { db with gRefs := l }

/-- Replace the Contents reference index (an `internal.comment.contents`
update; modelled from the spec). -/
def setCRefs (db : DB) (l : List (Nat × Str)) : DB := { db with cRefs := l }

/-- The generic (non-implicit) path of `tag(ea, key, value)`
(`base/database.py` lines 1556-1579): choose the canonical slot from
function membership, decode and (when non-empty) clear the other slot,
merge it under the canonical slot's mapping, increment the scope's
reference index when the key is new, store the value and write the
encoded mapping back to the canonical slot.  Returns the previous value
of the key, the new state, and the performed effects. -/
def tagSetCore (db : DB) (ea : Nat) (key : Str) (v : TagValue) :
    Except TagErr (Option TagValue) × DB × List Eff :=
  let repeatable := if db.inFunc ea then false else true
  let state0 := decode (db.cmt ea (!repeatable))
  let db1 := if state0.isEmpty then db else setCmt db ea (!repeatable) []
  let eff1 : List Eff := if state0.isEmpty then [] else [.slotWrite ea (!repeatable) []]
  let state := updateMap state0 (decode (db1.cmt ea repeatable))
  let isNew := (lookupTM state key).isNone
  let db2 :=
    if isNew then
      if db.inFunc ea then setCRefs db1 (idxInc db1.cRefs ea key)
      else setGRefs db1 (idxInc db1.gRefs ea key)
    else db1
  let eff2 : List Eff :=
    if isNew then (if db.inFunc ea then [.cinc ea key] else [.ginc ea key]) else []
  let res := lookupTM state key
  let newState := setTM state key v
  let db3 := setCmt db2 ea repeatable (encode newState)
  (.ok res, db3, eff1 ++ eff2 ++ [.slotWrite ea repeatable (encode newState)])

/-- `tag(ea, key, value)` (`base/database.py` lines 1541-1579): reject a
null value, dispatch the four implicit keys to their attribute setters
(`name(ea, value, listed=True)`, `extra.__set_prefix__`,
`extra.__set_suffix__`, `color(ea, value)` — modelled from the spec as
the per-location attribute updates), otherwise run the generic path. -/
def tagSet (db : DB) (ea : Nat) (key : Str) (value : Option TagValue) :
    Except TagErr (Option TagValue) × DB × List Eff :=
  match value with
  | none => (.error .invalidParameter, db, [])
  | some v =>
    if key = nameKey then
      (.ok (db.nameAt ea),
       { db with nameAt := funcUpd db.nameAt ea (some v), nameFlag := funcUpd db.nameFlag ea true },
       [.nameSet ea (some v)])
    else if key = preKey then
      (.ok (db.preAt ea), { db with preAt := funcUpd db.preAt ea (some v) }, [.preSet ea (some v)])
    else if key = sufKey then
      (.ok (db.sufAt ea), { db with sufAt := funcUpd db.sufAt ea (some v) }, [.sufSet ea (some v)])
    else if key = colorKey then
      (.ok (db.colorAt ea), { db with colorAt := funcUpd db.colorAt ea (some v) }, [.colorSet ea (some v)])
    else
      tagSetCore db ea key v

/-- The generic (non-implicit) path of `tag(ea, key, None)`
(`base/database.py` lines 1600-1623): choose the canonical slot, decode
and (when non-empty) clear the other slot, merge it under the canonical
slot's mapping, raise `MissingTagError` when the key is absent —
note the other slot has already been cleared at that point — otherwise
pop the key, write the encoded mapping back to the canonical slot,
decrement the scope's reference index and return the removed value. -/
def tagDelCore (db : DB) (ea : Nat) (key : Str) :
    Except TagErr (Option TagValue) × DB × List Eff :=
  let repeatable := if db.inFunc ea then false else true
  let state0 := decode (db.cmt ea (!repeatable))
  let db1 := if state0.isEmpty then db else setCmt db ea (!repeatable) []
  let eff1 : List Eff := if state0.isEmpty then [] else [.slotWrite ea (!repeatable) []]
  let state := updateMap state0 (decode (db1.cmt ea repeatable))
  if (lookupTM state key).isNone then (.error .missingTag, db1, eff1)
  else
    let res := lookupTM state key
    let newState := eraseTM state key
    let db2 := setCmt db1 ea repeatable (encode newState)
    let db3 :=
      if db.inFunc ea then setCRefs db2 (idxDec db2.cRefs ea key)
      else setGRefs db2 (idxDec db2.gRefs ea key)
    let eff2 : List Eff := if db.inFunc ea then [.cdec ea key] else [.gdec ea key]
    (.ok res, db3, eff1 ++ [.slotWrite ea repeatable (encode newState)] ++ eff2)

/-- `tag(ea, key, None)` (`base/database.py` lines 1588-1623): dispatch
`__name__`, `__extra_prefix__` and `__extra_suffix__` to their attribute
clear operations (`name(ea, None, listed=True)`, `extra.__del_prefix__`,
`extra.__del_suffix__` — modelled from the spec as clearing the
attribute); note that `__color__` is NOT dispatched by the source and
falls into the generic comment-blob path. -/
def tagDel (db : DB) (ea : Nat) (key : Str) :
    Except TagErr (Option TagValue) × DB × List Eff :=
  if key = nameKey then
    (.ok (db.nameAt ea),
     { db with nameAt := funcUpd db.nameAt ea none, nameFlag := funcUpd db.nameFlag ea false },
     [.nameSet ea none])
  else if key = preKey then
    (.ok (db.preAt ea), { db with preAt := funcUpd db.preAt ea none }, [.preSet ea none])
  else if key = sufKey then
    (.ok (db.sufAt ea), { db with sufAt := funcUpd db.sufAt ea none }, [.sufSet ea none])
  else
    tagDelCore db ea key

/-! ### The Query Engine: `database.select` and `database.selectcontents` -/

/-- The tag mapping `select` consults for an address of the Global
index: `function.tag(ea) if function.within(ea) else tag(ea)`. -/
def selTagMap (db : DB) (ea : Nat) : TagMap :=
  if db.inFunc ea then db.ftag ea else (tagAll db ea).1

/-- The per-address body of the `select` loop (`base/database.py` lines
1660-1674): collect the entries matching `Or`, require and collect all
of `And` when `And` is non-empty, and yield only a non-empty result. -/
def selEntry (db : DB) (Or And : List Str) (ea : Nat) : Option (Nat × TagMap) :=
  let d := selTagMap db ea
  let res := filterKeysTM d (fun k => decide (k ∈ Or))
  if And.isEmpty then
    if res.isEmpty then none else some (ea, res)
  else
    if And.all (fun k => containsTM d k) then
      let res2 := updateMap res (filterKeysTM d (fun k => decide (k ∈ And)))
      if res2.isEmpty then none else some (ea, res2)
    else none

/-- `select(**boolean)` (`base/database.py` lines 1639-1675): with no
query, yield every indexed address with its non-empty tag mapping;
otherwise run the boolean filter over every address of the Global
index. -/
def selectRun (db : DB) (Or And : List Str) : List (Nat × TagMap) :=
  if Or.isEmpty && And.isEmpty then
    db.gAddrs.filterMap (fun ea =>
      let d := selTagMap db ea
      if d.isEmpty then none else some (ea, d))
  else
    db.gAddrs.filterMap (selEntry db Or And)

/-- Union of two key-sets represented as lists (`set.update`). -/
def unionL (a b : List Str) : List Str := a ++ b.filter (fun k => !(decide (k ∈ a)))

/-- Set equality of two key-sets represented as lists. -/
def setEqL (a b : List Str) : Bool := a.all (fun k => decide (k ∈ b)) && b.all (fun k => decide (k ∈ a))

/-- `internal.comment.contents.name(ea)`.  Modelled from the spec: the
key set of the function's live contents blob. -/
def contentsName (db : DB) (ea : Nat) : List Str := keysTM (db.cLive ea)

/-- The per-function body of the `selectcontents` loop
(`base/database.py` lines 1711-1734): flag the consistency warning when
the recorded key-set of the iterated cache entry disagrees with the live
blob's keys, then answer the query from `contents.name(ea)` (the live
keys): collect `Or ∩ d`, require and add all of `And` when `And` is
non-empty, and yield only a non-empty result. -/
def scEntry (db : DB) (Or And : List Str) (p : Nat × List Str) :
    Option (Nat × List Str) × Bool :=
  let ea := p.1
  let warn := !(setEqL (keysTM (db.cLive ea)) p.2)
  let d := contentsName db ea
  let res := Or.filter (fun k => decide (k ∈ d))
  let out :=
    if And.isEmpty then
      if res.isEmpty then none else some (ea, res)
    else
      if And.all (fun k => decide (k ∈ d)) then
        let res2 := unionL res And
        if res2.isEmpty then none else some (ea, res2)
      else none
  (out, warn)

/-- `selectcontents(**boolean)` (`base/database.py` lines 1690-1735),
boolean-query path: yields the matching (function, key-set) pairs and
the list of function addresses for which the out-of-sync warning was
logged.  The function is read-only: it returns no updated state because
the source performs no write (the stored index is left untouched). -/
def selectcontentsRun (db : DB) (Or And : List Str) :
    List (Nat × List Str) × List Nat :=
  (db.cIter.filterMap (fun p => (scEntry db Or And p).1),
   (db.cIter.filter (fun p => (scEntry db Or And p).2)).map Prod.fst)

/-! ### Spec-side notions (§4.2, §4.3): canonical slot, merged mapping -/

/-- `slot_for(location)` (spec §4.2), as the `repeatable` flag of the
canonical comment slot: non-repeatable (`false`) inside a function body,
repeatable (`true`) otherwise. -/
def canonicalRepeatable (db : DB) (ea : Nat) : Bool := !(db.inFunc ea)

/-- The merged non-implicit tag mapping of a location: both slots
decoded, the canonical slot's entries winning. -/
def mergedMap (db : DB) (ea : Nat) : TagMap :=
  updateMap (decode (db.cmt ea (!(canonicalRepeatable db ea))))
    (decode (db.cmt ea (canonicalRepeatable db ea)))

/-- The implicit-tag overlay of `tag(ea)` (lines 1505-1513): each of the
four implicit tags is `setdefault`-ed in, only when its attribute is
present. -/
def overlayImplicit (db : DB) (ea : Nat) (m : TagMap) : TagMap :=
  let r1 := match db.nameAt ea with
    | some nm => if db.nameFlag ea then setdefaultTM m nameKey nm else m
    | none => m
  let r2 := match db.preAt ea with
    | some v => setdefaultTM r1 preKey v
    | none => r1
  let r3 := match db.sufAt ea with
    | some v => setdefaultTM r2 sufKey v
    | none => r2
  match db.colorAt ea with
  | some v => setdefaultTM r3 colorKey v
  | none => r3

/-! ### Effect counting and concrete databases -/

/-- Is a comment-slot write. -/
def isSlotWrite : Eff → Bool
  | .slotWrite _ _ _ => true
  | _ => false

/-- Is a reference-index operation (either scope). -/
def isIdxOp : Eff → Bool
  | .ginc _ _ => true
  | .gdec _ _ => true
  | .cinc _ _ => true
  | .cdec _ _ => true
  | _ => false

/-- Is a Global reference-index operation. -/
def isGlobalOp : Eff → Bool
  | .ginc _ _ => true
  | .gdec _ _ => true
  | _ => false

/-- Is a Contents reference-index operation. -/
def isContentsOp : Eff → Bool
  | .cinc _ _ => true
  | .cdec _ _ => true
  | _ => false

/-- How many effects satisfy `p`. -/
def countP (p : Eff → Bool) (l : List Eff) : Nat := (l.filter p).length

/-- The `selectcontents` answer for one function, computed from the live
contents blob alone (the spec's recovery rule for `IndexDesync`, §7). -/
def liveAnswer (db : DB) (Or And : List Str) (ea : Nat) : Option (Nat × List Str) :=
  let d := keysTM (db.cLive ea)
  let res := Or.filter (fun k => decide (k ∈ d))
  if And.isEmpty then
    if res.isEmpty then none else some (ea, res)
  else
    if And.all (fun k => decide (k ∈ d)) then
      let res2 := unionL res And
      if res2.isEmpty then none else some (ea, res2)
    else none

/-- An integer tag value. -/
def vInt (n : Int) : TagValue := .atom (.aint n)

/-- Sample tag name `a`. -/
def kA : Str := ['a']

/-- Sample tag name `b`. -/
def kB : Str := ['b']

/-- Sample tag name `k`. -/
def kC : Str := ['k']

/-- An empty database: no comments, no functions, no attributes. -/
def dbEmpty : DB :=
  { cmt := fun _ _ => [], inFunc := fun _ => false, nameAt := fun _ => none,
    nameFlag := fun _ => false, preAt := fun _ => none, sufAt := fun _ => none,
    colorAt := fun _ => none, gRefs := [], cRefs := [], gAddrs := [],
    cIter := [], cLive := fun _ => [], ftag := fun _ => [] }

/-- Both comment slots of address 0 hold a blob with the key `k`; the
address lies outside any function. -/
def dbBoth : DB :=
  { dbEmpty with cmt := fun a r =>
      if a = 0 then (if r then encode [(kC, vInt 1)] else encode [(kC, vInt 2)]) else [] }

/-- Address 0 carries a display color and one slot blob with key `a`
(the two slots are disjoint). -/
def dbC2x : DB :=
  { dbEmpty with
    cmt := fun a r => if a = 0 ∧ r = false then encode [(kA, vInt 1)] else [],
    colorAt := fun _ => some (vInt 5) }

/-- Address 0 carries only a display color. -/
def dbColor : DB := { dbEmpty with colorAt := fun _ => some (vInt 7) }

/-- Address 0's canonical (repeatable) slot holds the single tag `k`. -/
def dbOne : DB :=
  { dbEmpty with cmt := fun a r => if a = 0 ∧ r = true then encode [(kC, vInt 1)] else [] }

/-- A contents-index entry whose recorded key-set (`a`) disagrees with
the live blob (whose only key is `b`). -/
def dbDesync : DB :=
  { dbEmpty with cIter := [(0, [kA])], cLive := fun _ => [(kB, vInt 1)] }

/-- A mapping exercising every value type of the codec. -/
def mAll : TagMap :=
  [(kA, .atom (.astr ['x', 'y'])), (kB, .atom (.aint (-2))),
   (['c'], .atom (.abool true)), (['d'], .atom (.afloat 3 (-1))),
   (['e'], .seq [.aint 5, .astr [], .abool false, .afloat (-7) 2])]

/-! ### Codec round-trip -/

theorem ofDigits10_digitsAux : ∀ fuel n, n ≤ fuel → ofDigits10 (digitsAux fuel n) = n := by
  intro fuel
  induction fuel with
  | zero => intro n h; interval_cases n; rfl
  | succ f ih =>
    intro n h
    by_cases h0 : n = 0
    · subst h0; simp [digitsAux, ofDigits10]
    · have hdiv : n / 10 ≤ f := by
        have : n / 10 < n := Nat.div_lt_self (Nat.pos_of_ne_zero h0) (by omega)
        omega
      simp only [digitsAux, if_neg h0, ofDigits10]
      rw [ih _ hdiv]
      omega

theorem ofDigits10_natDigits (n : Nat) : ofDigits10 (natDigits n) = n :=
  ofDigits10_digitsAux n n (Nat.le_refl n)

theorem digitsAux_lt : ∀ fuel n d, d ∈ digitsAux fuel n → d < 10 := by
  intro fuel
  induction fuel with
  | zero => intro n d h; simp [digitsAux] at h
  | succ f ih =>
    intro n d h
    by_cases h0 : n = 0
    · subst h0; simp [digitsAux] at h
    · simp only [digitsAux, if_neg h0, List.mem_cons] at h
      rcases h with h | h
      · subst h; exact Nat.mod_lt _ (by omega)
      · exact ih _ _ h

theorem natDigits_lt (n : Nat) : ∀ d ∈ natDigits n, d < 10 :=
  fun d hd => digitsAux_lt n n d hd

theorem digitToChar_ne_hash (d : Nat) (h : d < 10) : digitToChar d ≠ '#' := by
  interval_cases d <;> decide

theorem isDig_digitToChar (d : Nat) (h : d < 10) : isDig (digitToChar d) = true := by
  interval_cases d <;> decide

theorem charToDigit_digitToChar (d : Nat) (h : d < 10) : charToDigit (digitToChar d) = d := by
  interval_cases d <;> decide

theorem readNum_digits : ∀ ds r, (∀ d ∈ ds, d < 10) →
    readNum (ds.map digitToChar ++ '#' :: r) = some (ofDigits10 ds, r) := by
  intro ds
  induction ds with
  | nil => intro r _; simp [readNum, ofDigits10]
  | cons d ds ih =>
    intro r h
    have hd : d < 10 := h d (by simp)
    have hds : ∀ x ∈ ds, x < 10 := fun x hx => h x (List.mem_cons_of_mem _ hx)
    simp only [List.map_cons, List.cons_append, readNum, List.append_eq]
    rw [if_neg (digitToChar_ne_hash d hd), if_pos (isDig_digitToChar d hd), ih r hds]
    simp [charToDigit_digitToChar d hd, ofDigits10]

theorem readNum_encNat (n : Nat) (r : Str) : readNum (encNat n ++ r) = some (n, r) := by
  have h1 : encNat n ++ r = (natDigits n).map digitToChar ++ '#' :: r := by
    simp [encNat]
  rw [h1, readNum_digits _ _ (natDigits_lt n), ofDigits10_natDigits]

theorem readStr_encStr (s : Str) (r : Str) : readStr (encStr s ++ r) = some (s, r) := by
  have h1 : encStr s ++ r = encNat s.length ++ (s ++ r) := by
    simp [encStr]
  rw [readStr, h1, readNum_encNat]
  simp only [List.length_append]
  rw [if_pos (by omega)]
  rw [List.take_left, List.drop_left]

theorem readInt_encInt (i : Int) (r : Str) : readInt (encInt i ++ r) = some (i, r) := by
  cases i with
  | ofNat n => simp [encInt, readInt, readNum_encNat]
  | negSucc n => simp [encInt, readInt, readNum_encNat]

theorem readAtom_encAtom (a : Atom) (r : Str) : readAtom (encAtom a ++ r) = some (a, r) := by
  cases a with
  | astr s => simp [encAtom, readAtom, readStr_encStr]
  | aint i => simp [encAtom, readAtom, readInt_encInt]
  | abool b => cases b <;> simp [encAtom, readAtom]
  | afloat m e => simp [encAtom, readAtom, readInt_encInt]

theorem readAtoms_enc : ∀ (as : List Atom) (r : Str),
    readAtoms as.length ((as.map encAtom).flatten ++ r) = some (as, r) := by
  intro as
  induction as with
  | nil => intro r; simp [readAtoms]
  | cons a as ih => intro r; simp [readAtoms, readAtom_encAtom, ih]

theorem readVal_encVal (v : TagValue) (r : Str) : readVal (encVal v ++ r) = some (v, r) := by
  cases v with
  | atom a => simp [encVal, readVal, readAtom_encAtom]
  | seq as => simp [encVal, readVal, readNum_encNat, readAtoms_enc]

theorem readEntry_encEntry (e : Str × TagValue) (r : Str) :
    readEntry (encEntry e ++ r) = some (e, r) := by
  obtain ⟨k, v⟩ := e
  simp [encEntry, readEntry, readStr_encStr, readVal_encVal]

theorem readEntries_enc : ∀ (m : TagMap) (r : Str),
    readEntries m.length ((m.map encEntry).flatten ++ r) = some (m, r) := by
  intro m
  induction m with
  | nil => intro r; simp [readEntries]
  | cons e m ih => intro r; simp [readEntries, readEntry_encEntry, ih]

theorem decode_encode (m : TagMap) (h : wfTM m) : decode (encode m) = m := by
  have h2 := readEntries_enc m []
  rw [List.append_nil] at h2
  simp [decode, encode, readNum_encNat, h2, h]

theorem decode_nil : decode [] = [] := rfl

theorem decode_wf (l : Str) : wfTM (decode l) := by
  unfold decode
  split
  · split
    · split
      · assumption
      · exact List.nodup_nil
    · exact List.nodup_nil
  · exact List.nodup_nil

theorem containsTM_iff_mem (m : TagMap) (k : Str) :
    containsTM m k = true ↔ k ∈ keysTM m := by
  induction m with
  | nil =>
    constructor
    · intro h; exact absurd h (by rw [containsTM, lookupTM]; simp)
    · intro h; exact absurd h (by rw [keysTM]; simp)
  | cons e m ih =>
    rw [containsTM, lookupTM, keysTM, List.map_cons]
    by_cases h : e.1 = k
    · rw [if_pos h]
      refine ⟨fun _ => ?_, fun _ => rfl⟩
      rw [List.mem_cons]
      exact Or.inl h.symm
    · rw [if_neg h, List.mem_cons]
      rw [containsTM, keysTM] at ih
      constructor
      · intro hh; exact Or.inr (ih.1 hh)
      · rintro (hk | hm)
        · exact absurd hk.symm h
        · exact ih.2 hm

theorem lookupTM_none_of_contains_false (m : TagMap) (k : Str)
    (h : containsTM m k = false) : lookupTM m k = none := by
  cases ho : lookupTM m k with
  | none => rfl
  | some v => rw [containsTM, ho] at h; simp at h

theorem lookupTM_append (m1 m2 : TagMap) (k : Str) :
    lookupTM (m1 ++ m2) k =
      match lookupTM m1 k with
      | some v => some v
      | none => lookupTM m2 k := by
  induction m1 with
  | nil => rfl
  | cons e m ih =>
    by_cases h : e.1 = k
    · simp [lookupTM, h]
    · simp only [List.cons_append, lookupTM, if_neg h]
      exact ih

theorem lookupTM_filterKeys (m : TagMap) (p : Str → Bool) (k : Str) :
    lookupTM (filterKeysTM m p) k = if p k then lookupTM m k else none := by
  induction m with
  | nil => simp [filterKeysTM, lookupTM]
  | cons e m ih =>
    rw [filterKeysTM, List.filter_cons]
    by_cases hk : e.1 = k
    · subst hk
      cases hp : p e.1
      · simp only [hp, Bool.false_eq_true, if_false]
        rw [filterKeysTM] at ih
        rw [ih, hp]
        rfl
      · simp [hp, lookupTM]
    · cases hp : p e.1
      · simp only [hp, Bool.false_eq_true, if_false]
        rw [filterKeysTM] at ih
        rw [ih, lookupTM]
        split <;> simp [lookupTM, if_neg hk]
      · simp only [hp, if_true]
        rw [lookupTM, if_neg hk]
        rw [filterKeysTM] at ih
        rw [ih, lookupTM, if_neg hk]

theorem lookupTM_updateMap (m1 m2 : TagMap) (k : Str) :
    lookupTM (updateMap m1 m2) k =
      if containsTM m2 k then lookupTM m2 k else lookupTM m1 k := by
  rw [updateMap, lookupTM_append, lookupTM_filterKeys]
  cases h : containsTM m2 k
  · simp only [h, Bool.not_false, if_true, Bool.false_eq_true, if_false]
    cases ho : lookupTM m1 k
    · rw [lookupTM_none_of_contains_false m2 k h]
    · rfl
  · simp [h]

theorem lookupTM_eraseTM (m : TagMap) (k k' : Str) :
    lookupTM (eraseTM m k) k' = if k' = k then none else lookupTM m k' := by
  rw [eraseTM, lookupTM_filterKeys]
  by_cases h : k' = k <;> simp [h]

theorem lookupTM_setTM (m : TagMap) (k : Str) (v : TagValue) (k' : Str) :
    lookupTM (setTM m k v) k' = if k' = k then some v else lookupTM m k' := by
  rw [setTM, lookupTM]
  by_cases h : k' = k
  · simp [h]
  · have h2 : ¬(k = k') := fun hh => h hh.symm
    rw [if_neg h2, if_neg h, lookupTM_eraseTM, if_neg h]

theorem lookupTM_setdefaultTM (m : TagMap) (k : Str) (v : TagValue) (k' : Str) (h : k' ≠ k) :
    lookupTM (setdefaultTM m k v) k' = lookupTM m k' := by
  rw [setdefaultTM]
  split
  · rfl
  · rw [lookupTM, if_neg (fun hh => h hh.symm)]

theorem lookupTM_setdefaultTM_same (m : TagMap) (k : Str) (v : TagValue) :
    lookupTM (setdefaultTM m k v) k =
      match lookupTM m k with
      | some w => some w
      | none => some v := by
  rw [setdefaultTM]
  cases ho : lookupTM m k with
  | none =>
    rw [if_neg (by rw [containsTM, ho]; simp), lookupTM, if_pos rfl]
  | some w =>
    rw [if_pos (by rw [containsTM, ho]; rfl), ho]

theorem keysTM_filterKeys (m : TagMap) (p : Str → Bool) :
    keysTM (filterKeysTM m p) = (keysTM m).filter p := by
  rw [keysTM, keysTM, filterKeysTM, List.filter_map]
  rfl

theorem wfTM_filterKeys (m : TagMap) (p : Str → Bool) (h : wfTM m) :
    wfTM (filterKeysTM m p) := by
  rw [wfTM] at h ⊢
  have : keysTM (filterKeysTM m p) = (keysTM m).filter p := keysTM_filterKeys m p
  rw [keysTM] at this
  rw [this]
  exact List.Nodup.filter _ h

theorem wfTM_eraseTM (m : TagMap) (k : Str) (h : wfTM m) : wfTM (eraseTM m k) :=
  wfTM_filterKeys m _ h

theorem wfTM_updateMap (m1 m2 : TagMap) (h1 : wfTM m1) (h2 : wfTM m2) :
    wfTM (updateMap m1 m2) := by
  rw [wfTM, updateMap, List.map_append, List.nodup_append]
  refine ⟨wfTM_filterKeys m1 _ h1, h2, ?_⟩
  intro x hx hx2
  have hx' : x ∈ keysTM (filterKeysTM m1 (fun k => !(containsTM m2 k))) := hx
  rw [keysTM_filterKeys, List.mem_filter] at hx'
  have hc : containsTM m2 x = false := by
    cases hcc : containsTM m2 x
    · rfl
    · rw [hcc] at hx'; simp at hx'
  have : containsTM m2 x = true := (containsTM_iff_mem m2 x).2 hx2
  rw [this] at hc
  exact Bool.true_eq_false.mp hc

theorem tagAll_fst (db : DB) (ea : Nat) :
    (tagAll db ea).1 = overlayImplicit db ea (mergedMap db ea) := by
  rw [tagAll, overlayImplicit, mergedMap, canonicalRepeatable]
  cases h : db.inFunc ea <;> simp [h]

theorem tagAll_snd (db : DB) (ea : Nat) :
    (tagAll db ea).2 =
      (keysTM (decode (db.cmt ea false))).any
        (fun k => decide (k ∈ keysTM (decode (db.cmt ea true)))) := rfl

theorem wfTM_mergedMap (db : DB) (ea : Nat) : wfTM (mergedMap db ea) :=
  wfTM_updateMap _ _ (decode_wf _) (decode_wf _)

/-- The canonical slot's entries win in the merged mapping. -/
theorem lookupTM_mergedMap_canon (db : DB) (ea : Nat) (k : Str)
    (h : containsTM (decode (db.cmt ea (canonicalRepeatable db ea))) k = true) :
    lookupTM (mergedMap db ea) k =
      lookupTM (decode (db.cmt ea (canonicalRepeatable db ea))) k := by
  rw [mergedMap, lookupTM_updateMap, if_pos h]

/-- Outside the overlap, the merged mapping is the union. -/
theorem lookupTM_mergedMap_other (db : DB) (ea : Nat) (k : Str)
    (h : containsTM (decode (db.cmt ea (canonicalRepeatable db ea))) k = false) :
    lookupTM (mergedMap db ea) k =
      lookupTM (decode (db.cmt ea (!(canonicalRepeatable db ea)))) k := by
  rw [mergedMap, lookupTM_updateMap, if_neg]
  rw [h]
  exact Bool.false_ne_true

theorem lookupTM_setdefaultTM_of_some (m : TagMap) (k : Str) (v : TagValue) (k' : Str)
    (w : TagValue) (h : lookupTM m k' = some w) :
    lookupTM (setdefaultTM m k v) k' = some w := by
  by_cases hk : k' = k
  · subst hk
    rw [lookupTM_setdefaultTM_same, h]
  · rw [lookupTM_setdefaultTM m k v k' hk, h]

/-- The four implicit key names are pairwise distinct. -/
theorem implicitKeys_distinct :
    nameKey ≠ preKey ∧ nameKey ≠ sufKey ∧ nameKey ≠ colorKey ∧
    preKey ≠ sufKey ∧ preKey ≠ colorKey ∧ sufKey ≠ colorKey := by
  refine ⟨?_, ?_, ?_, ?_, ?_, ?_⟩ <;> decide

/-- The overlay does not change the lookup of a non-implicit key. -/
theorem lookupTM_overlay_ne (db : DB) (ea : Nat) (m : TagMap) (k : Str)
    (h1 : k ≠ nameKey) (h2 : k ≠ preKey) (h3 : k ≠ sufKey) (h4 : k ≠ colorKey) :
    lookupTM (overlayImplicit db ea m) k = lookupTM m k := by
  rw [overlayImplicit]
  have step : ∀ (o : Option TagValue) (key0 : Str) (m0 : TagMap), k ≠ key0 →
      lookupTM (match o with
        | some v => setdefaultTM m0 key0 v
        | none => m0) k = lookupTM m0 k := by
    intro o key0 m0 hk
    cases o with
    | none => rfl
    | some v => exact lookupTM_setdefaultTM m0 key0 v k hk
  rw [step (db.colorAt ea) colorKey _ h4, step (db.sufAt ea) sufKey _ h3,
    step (db.preAt ea) preKey _ h2]
  cases ho : db.nameAt ea with
  | none => rfl
  | some nm =>
    cases hf : db.nameFlag ea
    · rfl
    · simp only [if_true]
      exact lookupTM_setdefaultTM m nameKey nm k h1

/-! ### Characterization of the generic set/delete paths -/

theorem setCmt_cmt (db : DB) (ea : Nat) (b : Bool) (t : Str) (a : Nat) (r : Bool) :
    (setCmt db ea b t).cmt a r = if a = ea ∧ r = b then t else db.cmt a r := rfl

theorem setCmt_inFunc (db : DB) (ea : Nat) (b : Bool) (t : Str) :
    (setCmt db ea b t).inFunc = db.inFunc := rfl

theorem setGRefs_cmt (db : DB) (l : List (Nat × Str)) : (setGRefs db l).cmt = db.cmt := rfl

theorem setCRefs_cmt (db : DB) (l : List (Nat × Str)) : (setCRefs db l).cmt = db.cmt := rfl

theorem setGRefs_inFunc (db : DB) (l : List (Nat × Str)) : (setGRefs db l).inFunc = db.inFunc := rfl

theorem setCRefs_inFunc (db : DB) (l : List (Nat × Str)) : (setCRefs db l).inFunc = db.inFunc := rfl

theorem codeRep_eq (db : DB) (ea : Nat) :
    (if db.inFunc ea then false else true) = canonicalRepeatable db ea := by
  rw [canonicalRepeatable]
  cases db.inFunc ea <;> rfl

theorem notb_ne (b : Bool) : ¬((!b) = b) := by cases b <;> simp

theorem isEmpty_eq_nil {α : Type} (l : List α) (h : l.isEmpty = true) : l = [] := by
  cases l with
  | nil => rfl
  | cons a as => exact absurd h (by simp)

theorem db1_cmt (db : DB) (ea : Nat) (rep : Bool) :
    (if (decode (db.cmt ea (!rep))).isEmpty then db else setCmt db ea (!rep) []).cmt ea rep =
      db.cmt ea rep := by
  split
  · rfl
  · rw [setCmt_cmt, if_neg]
    rintro ⟨-, h⟩
    exact notb_ne rep h.symm

theorem db1_noncanon (db : DB) (ea : Nat) (rep : Bool) :
    decode ((if (decode (db.cmt ea (!rep))).isEmpty then db
             else setCmt db ea (!rep) []).cmt ea (!rep)) = [] := by
  split
  · rename_i h
    exact isEmpty_eq_nil _ h
  · rw [setCmt_cmt, if_pos ⟨rfl, rfl⟩]
    exact decode_nil

theorem db1_inFunc (db : DB) (ea : Nat) (rep : Bool) :
    (if (decode (db.cmt ea (!rep))).isEmpty then db
     else setCmt db ea (!rep) []).inFunc = db.inFunc := by
  split <;> rfl

theorem tagSetCore_fst (db : DB) (ea : Nat) (key : Str) (v : TagValue) :
    (tagSetCore db ea key v).1 = Except.ok (lookupTM (mergedMap db ea) key) := by
  simp only [tagSetCore, codeRep_eq, db1_cmt]
  rw [← mergedMap]

theorem tagSetCore_inFunc (db : DB) (ea : Nat) (key : Str) (v : TagValue) :
    (tagSetCore db ea key v).2.1.inFunc = db.inFunc := by
  simp only [tagSetCore, codeRep_eq, db1_cmt, setCmt_inFunc]
  split
  · split
    · rw [setCRefs_inFunc]
      exact db1_inFunc db ea _
    · rw [setGRefs_inFunc]
      exact db1_inFunc db ea _
  · exact db1_inFunc db ea _

theorem tagSetCore_cmt_canon (db : DB) (ea : Nat) (key : Str) (v : TagValue) :
    (tagSetCore db ea key v).2.1.cmt ea (canonicalRepeatable db ea) =
      encode (setTM (mergedMap db ea) key v) := by
  simp only [tagSetCore, codeRep_eq, db1_cmt, setCmt_cmt]
  rw [← mergedMap]
  simp

theorem tagSetCore_noncanon (db : DB) (ea : Nat) (key : Str) (v : TagValue) :
    decode ((tagSetCore db ea key v).2.1.cmt ea (!(canonicalRepeatable db ea))) = [] := by
  simp only [tagSetCore, codeRep_eq, db1_cmt, setCmt_cmt]
  rw [if_neg (fun hh => notb_ne _ hh.2)]
  split
  · split
    · rw [setCRefs_cmt]
      exact db1_noncanon db ea _
    · rw [setGRefs_cmt]
      exact db1_noncanon db ea _
  · exact db1_noncanon db ea _

theorem tagSetCore_effects (db : DB) (ea : Nat) (key : Str) (v : TagValue) :
    (tagSetCore db ea key v).2.2 =
      (if (decode (db.cmt ea (!(canonicalRepeatable db ea)))).isEmpty then ([] : List Eff)
       else [Eff.slotWrite ea (!(canonicalRepeatable db ea)) []]) ++
      (if (lookupTM (mergedMap db ea) key).isNone then
        (if db.inFunc ea then [Eff.cinc ea key] else [Eff.ginc ea key])
       else []) ++
      [Eff.slotWrite ea (canonicalRepeatable db ea) (encode (setTM (mergedMap db ea) key v))] := by
  simp only [tagSetCore, codeRep_eq, db1_cmt]
  rw [← mergedMap]

theorem tagDelCore_fst (db : DB) (ea : Nat) (key : Str) :
    (tagDelCore db ea key).1 =
      if (lookupTM (mergedMap db ea) key).isNone then Except.error TagErr.missingTag
      else Except.ok (lookupTM (mergedMap db ea) key) := by
  simp only [tagDelCore, codeRep_eq, db1_cmt]
  rw [← mergedMap]
  split <;> rfl

theorem tagDelCore_inFunc (db : DB) (ea : Nat) (key : Str) :
    (tagDelCore db ea key).2.1.inFunc = db.inFunc := by
  simp only [tagDelCore, codeRep_eq, db1_cmt]
  split
  · exact db1_inFunc db ea _
  · split
    · rw [setCRefs_inFunc, setCmt_inFunc]
      exact db1_inFunc db ea _
    · rw [setGRefs_inFunc, setCmt_inFunc]
      exact db1_inFunc db ea _

theorem tagDelCore_cmt_canon (db : DB) (ea : Nat) (key : Str) (w : TagValue)
    (h : lookupTM (mergedMap db ea) key = some w) :
    (tagDelCore db ea key).2.1.cmt ea (canonicalRepeatable db ea) =
      encode (eraseTM (mergedMap db ea) key) := by
  simp only [tagDelCore, codeRep_eq, db1_cmt]
  rw [← mergedMap, h]
  simp only [Option.isNone_some, Bool.false_eq_true, if_false]
  split
  · rw [setCRefs_cmt, setCmt_cmt, if_pos ⟨rfl, rfl⟩]
  · rw [setGRefs_cmt, setCmt_cmt, if_pos ⟨rfl, rfl⟩]

theorem tagDelCore_noncanon (db : DB) (ea : Nat) (key : Str) (w : TagValue)
    (h : lookupTM (mergedMap db ea) key = some w) :
    decode ((tagDelCore db ea key).2.1.cmt ea (!(canonicalRepeatable db ea))) = [] := by
  simp only [tagDelCore, codeRep_eq, db1_cmt]
  rw [← mergedMap, h]
  simp only [Option.isNone_some, Bool.false_eq_true, if_false]
  split
  · rw [setCRefs_cmt, setCmt_cmt, if_neg (fun hh => notb_ne _ hh.2)]
    exact db1_noncanon db ea _
  · rw [setGRefs_cmt, setCmt_cmt, if_neg (fun hh => notb_ne _ hh.2)]
    exact db1_noncanon db ea _

theorem tagDelCore_fail_db (db : DB) (ea : Nat) (key : Str)
    (h : lookupTM (mergedMap db ea) key = none) :
    (tagDelCore db ea key).2.1 =
      (if (decode (db.cmt ea (!(canonicalRepeatable db ea)))).isEmpty then db
       else setCmt db ea (!(canonicalRepeatable db ea)) []) := by
  simp only [tagDelCore, codeRep_eq, db1_cmt]
  rw [← mergedMap, h]
  rfl

theorem tagDelCore_effects (db : DB) (ea : Nat) (key : Str) (w : TagValue)
    (h : lookupTM (mergedMap db ea) key = some w) :
    (tagDelCore db ea key).2.2 =
      (if (decode (db.cmt ea (!(canonicalRepeatable db ea)))).isEmpty then ([] : List Eff)
       else [Eff.slotWrite ea (!(canonicalRepeatable db ea)) []]) ++
      [Eff.slotWrite ea (canonicalRepeatable db ea) (encode (eraseTM (mergedMap db ea) key))] ++
      (if db.inFunc ea then [Eff.cdec ea key] else [Eff.gdec ea key]) := by
  simp only [tagDelCore, codeRep_eq, db1_cmt]
  rw [← mergedMap, h]
  simp only [Option.isNone_some, Bool.false_eq_true, if_false]

theorem tagSet_eq_core (db : DB) (ea : Nat) (key : Str) (v : TagValue)
    (h1 : key ≠ nameKey) (h2 : key ≠ preKey) (h3 : key ≠ sufKey) (h4 : key ≠ colorKey) :
    tagSet db ea key (some v) = tagSetCore db ea key v := by
  rw [tagSet, if_neg h1, if_neg h2, if_neg h3, if_neg h4]

theorem tagDel_eq_core (db : DB) (ea : Nat) (key : Str)
    (h1 : key ≠ nameKey) (h2 : key ≠ preKey) (h3 : key ≠ sufKey) :
    tagDel db ea key = tagDelCore db ea key := by
  rw [tagDel, if_neg h1, if_neg h2, if_neg h3]

/-! ### Per-key behavior of the implicit overlay -/

theorem name_ne_pre : nameKey ≠ preKey := by decide

theorem name_ne_suf : nameKey ≠ sufKey := by decide

theorem name_ne_color : nameKey ≠ colorKey := by decide

theorem pre_ne_suf : preKey ≠ sufKey := by decide

theorem pre_ne_color : preKey ≠ colorKey := by decide

theorem suf_ne_color : sufKey ≠ colorKey := by decide

theorem lookupTM_matchStep (o : Option TagValue) (key0 : Str) (m0 : TagMap) (k : Str)
    (hk : k ≠ key0) :
    lookupTM (match o with
      | some v => setdefaultTM m0 key0 v
      | none => m0) k = lookupTM m0 k := by
  cases o with
  | none => rfl
  | some v => exact lookupTM_setdefaultTM m0 key0 v k hk

theorem lookupTM_nameStep (db : DB) (ea : Nat) (m : TagMap) (k : Str) (hk : k ≠ nameKey) :
    lookupTM (match db.nameAt ea with
      | some nm => if db.nameFlag ea then setdefaultTM m nameKey nm else m
      | none => m) k = lookupTM m k := by
  cases db.nameAt ea with
  | none => rfl
  | some nm =>
    cases hf : db.nameFlag ea
    · rfl
    · simp only [if_true]
      exact lookupTM_setdefaultTM m nameKey nm k hk

theorem lookupTM_overlay_name (db : DB) (ea : Nat) (m : TagMap) :
    lookupTM (overlayImplicit db ea m) nameKey =
      match lookupTM m nameKey with
      | some w => some w
      | none =>
        match db.nameAt ea with
        | some nm => if db.nameFlag ea then some nm else none
        | none => none := by
  rw [overlayImplicit]
  rw [lookupTM_matchStep _ colorKey _ _ name_ne_color,
    lookupTM_matchStep _ sufKey _ _ name_ne_suf,
    lookupTM_matchStep _ preKey _ _ name_ne_pre]
  cases hn : db.nameAt ea with
  | none => cases lookupTM m nameKey <;> rfl
  | some nm =>
    cases hf : db.nameFlag ea
    · simp only [Bool.false_eq_true, if_false]
      cases lookupTM m nameKey <;> rfl
    · simp only [if_true]
      rw [lookupTM_setdefaultTM_same]

theorem lookupTM_overlay_pre (db : DB) (ea : Nat) (m : TagMap) :
    lookupTM (overlayImplicit db ea m) preKey =
      match lookupTM m preKey with
      | some w => some w
      | none => db.preAt ea := by
  rw [overlayImplicit]
  rw [lookupTM_matchStep _ colorKey _ _ pre_ne_color,
    lookupTM_matchStep _ sufKey _ _ pre_ne_suf]
  have hr1 := lookupTM_nameStep db ea m preKey (Ne.symm name_ne_pre)
  cases hp : db.preAt ea with
  | none =>
    rw [hr1]
    cases lookupTM m preKey <;> rfl
  | some v =>
    rw [lookupTM_setdefaultTM_same, hr1]

theorem lookupTM_overlay_suf (db : DB) (ea : Nat) (m : TagMap) :
    lookupTM (overlayImplicit db ea m) sufKey =
      match lookupTM m sufKey with
      | some w => some w
      | none => db.sufAt ea := by
  rw [overlayImplicit]
  rw [lookupTM_matchStep _ colorKey _ _ suf_ne_color]
  have hr2 : lookupTM (match db.preAt ea with
      | some v => setdefaultTM (match db.nameAt ea with
          | some nm => if db.nameFlag ea then setdefaultTM m nameKey nm else m
          | none => m) preKey v
      | none =>
        match db.nameAt ea with
        | some nm => if db.nameFlag ea then setdefaultTM m nameKey nm else m
        | none => m) sufKey = lookupTM m sufKey := by
    rw [lookupTM_matchStep _ preKey _ _ (Ne.symm pre_ne_suf)]
    exact lookupTM_nameStep db ea m sufKey (Ne.symm name_ne_suf)
  cases hs : db.sufAt ea with
  | none =>
    rw [hr2]
    cases lookupTM m sufKey <;> rfl
  | some v =>
    rw [lookupTM_setdefaultTM_same, hr2]

theorem lookupTM_overlay_color (db : DB) (ea : Nat) (m : TagMap) :
    lookupTM (overlayImplicit db ea m) colorKey =
      match lookupTM m colorKey with
      | some w => some w
      | none => db.colorAt ea := by
  rw [overlayImplicit]
  have hr3 : lookupTM (match db.sufAt ea with
      | some v => setdefaultTM (match db.preAt ea with
          | some v2 => setdefaultTM (match db.nameAt ea with
              | some nm => if db.nameFlag ea then setdefaultTM m nameKey nm else m
              | none => m) preKey v2
          | none =>
            match db.nameAt ea with
            | some nm => if db.nameFlag ea then setdefaultTM m nameKey nm else m
            | none => m) sufKey v
      | none =>
        match db.preAt ea with
        | some v2 => setdefaultTM (match db.nameAt ea with
            | some nm => if db.nameFlag ea then setdefaultTM m nameKey nm else m
            | none => m) preKey v2
        | none =>
          match db.nameAt ea with
          | some nm => if db.nameFlag ea then setdefaultTM m nameKey nm else m
          | none => m) colorKey = lookupTM m colorKey := by
    rw [lookupTM_matchStep _ sufKey _ _ (Ne.symm suf_ne_color),
      lookupTM_matchStep _ preKey _ _ (Ne.symm pre_ne_color)]
    exact lookupTM_nameStep db ea m colorKey (Ne.symm name_ne_color)
  cases hc : db.colorAt ea with
  | none =>
    rw [hr3]
    cases lookupTM m colorKey <;> rfl
  | some v =>
    rw [lookupTM_setdefaultTM_same, hr3]

/-! ### Query-engine lemmas -/

theorem updateMap_nil (m : TagMap) : updateMap [] m = m := rfl

theorem filter_false_nil {α : Type} (l : List α) : l.filter (fun _ => false) = [] := by
  induction l with
  | nil => rfl
  | cons a l ih =>
    rw [List.filter_cons]
    simp only [Bool.false_eq_true, if_false]
    exact ih

theorem filterKeysTM_congr (m : TagMap) (p q : Str → Bool) (h : ∀ k, p k = q k) :
    filterKeysTM m p = filterKeysTM m q := by
  induction m with
  | nil => rfl
  | cons e m ih =>
    rw [filterKeysTM, filterKeysTM, List.filter_cons, List.filter_cons, h e.1]
    rw [filterKeysTM, filterKeysTM] at ih
    rw [ih]

theorem filterKeysTM_isEmpty_iff (m : TagMap) (p : Str → Bool) :
    (filterKeysTM m p).isEmpty = true ↔ ∀ k ∈ keysTM m, p k = false := by
  induction m with
  | nil =>
    constructor
    · intro _ k hk
      exact absurd hk (by rw [keysTM]; simp)
    · intro _; rfl
  | cons e m ih =>
    rw [filterKeysTM, List.filter_cons, keysTM, List.map_cons]
    rw [filterKeysTM] at ih
    cases hp : p e.1
    · simp only [Bool.false_eq_true, if_false]
      rw [ih]
      constructor
      · intro h k hk
        rw [List.mem_cons] at hk
        rcases hk with hk | hk
        · rw [hk]; exact hp
        · exact h k hk
      · intro h k hk
        exact h k (List.mem_cons_of_mem _ hk)
    · simp only [if_true, List.isEmpty_cons]
      constructor
      · intro h; exact absurd h (by simp)
      · intro h
        have := h e.1 (List.mem_cons_self e.1 _)
        rw [hp] at this
        exact absurd this (by simp)

theorem filterMapCongr {α β : Type} (l : List α) (f g : α → Option β)
    (h : ∀ a ∈ l, f a = g a) : l.filterMap f = l.filterMap g := by
  induction l with
  | nil => rfl
  | cons a l ih =>
    rw [List.filterMap_cons, List.filterMap_cons, h a (List.mem_cons_self a l),
      ih (fun x hx => h x (List.mem_cons_of_mem _ hx))]

theorem mem_pair_pred (A B : Str) : ∀ k : Str,
    (decide (k ∈ [A, B])) = (decide (k = A ∨ k = B)) := by
  intro k
  rcases Decidable.em (k = A ∨ k = B) with h | h
  · rw [decide_eq_true h, decide_eq_true (by simpa using h)]
  · rw [decide_eq_false h, decide_eq_false (by simpa using h)]

theorem selEntry_and (db : DB) (A B : Str) (ea : Nat) :
    selEntry db [] [A, B] ea =
      if containsTM (selTagMap db ea) A = true ∧ containsTM (selTagMap db ea) B = true then
        some (ea, filterKeysTM (selTagMap db ea) (fun k => decide (k = A ∨ k = B)))
      else none := by
  rw [selEntry]
  have hres : filterKeysTM (selTagMap db ea) (fun k => decide (k ∈ ([] : List Str))) = [] := by
    rw [filterKeysTM_congr _ _ (fun _ => false) (by intro k; simp), filterKeysTM]
    exact filter_false_nil _
  rw [hres]
  simp only [List.isEmpty_cons, Bool.false_eq_true, if_false, List.all_cons, List.all_nil,
    Bool.and_true, updateMap_nil]
  rw [filterKeysTM_congr _ _ _ (mem_pair_pred A B)]
  by_cases hAB : containsTM (selTagMap db ea) A = true ∧ containsTM (selTagMap db ea) B = true
  · rw [if_pos (by simp [hAB.1, hAB.2]), if_pos hAB, if_neg]
    intro hemp
    have h1 := (filterKeysTM_isEmpty_iff _ _).1 hemp A ((containsTM_iff_mem _ _).1 hAB.1)
    rw [decide_eq_true (Or.inl rfl)] at h1
    exact absurd h1 (by simp)
  · rw [if_neg, if_neg hAB]
    intro hcond
    exact hAB (by simpa using hcond)

theorem selEntry_or (db : DB) (A B : Str) (ea : Nat) :
    selEntry db [A, B] [] ea =
      if containsTM (selTagMap db ea) A = true ∨ containsTM (selTagMap db ea) B = true then
        some (ea, filterKeysTM (selTagMap db ea) (fun k => decide (k = A ∨ k = B)))
      else none := by
  rw [selEntry]
  simp only [List.isEmpty_nil, if_true]
  rw [filterKeysTM_congr _ _ _ (mem_pair_pred A B)]
  by_cases h : containsTM (selTagMap db ea) A = true ∨ containsTM (selTagMap db ea) B = true
  · rw [if_pos h, if_neg]
    intro hemp
    rcases h with h | h
    · have h1 := (filterKeysTM_isEmpty_iff _ _).1 hemp A ((containsTM_iff_mem _ _).1 h)
      rw [decide_eq_true (Or.inl rfl)] at h1
      exact absurd h1 (by simp)
    · have h1 := (filterKeysTM_isEmpty_iff _ _).1 hemp B ((containsTM_iff_mem _ _).1 h)
      rw [decide_eq_true (Or.inr rfl)] at h1
      exact absurd h1 (by simp)
  · rw [if_neg h, if_pos]
    rw [filterKeysTM_isEmpty_iff]
    intro k hk
    rcases Decidable.em (k = A ∨ k = B) with hor | hor
    · exfalso
      rcases hor with rfl | rfl
      · exact h (Or.inl ((containsTM_iff_mem _ _).2 hk))
      · exact h (Or.inr ((containsTM_iff_mem _ _).2 hk))
    · exact decide_eq_false hor

/-! ### The claims -/

/-- C1: the slot selector makes the non-repeatable slot canonical exactly
when the location lies within a function body, and the read
(priority slot of the merge), write (slot receiving the re-encoded
mapping) and delete (likewise) paths of `tag` all use that slot as
canonical. -/
theorem claim_C1 (db : DB) (ea : Nat) (key : Str) (v : TagValue)
    (h1 : key ≠ nameKey) (h2 : key ≠ preKey) (h3 : key ≠ sufKey) (h4 : key ≠ colorKey) :
    (canonicalRepeatable db ea = false ↔ db.inFunc ea = true)
    ∧ (tagAll db ea).1 = overlayImplicit db ea
        (updateMap (decode (db.cmt ea (!(canonicalRepeatable db ea))))
          (decode (db.cmt ea (canonicalRepeatable db ea))))
    ∧ (tagSet db ea key (some v)).2.1.cmt ea (canonicalRepeatable db ea) =
        encode (setTM (mergedMap db ea) key v)
    ∧ (∀ w, lookupTM (mergedMap db ea) key = some w →
        (tagDel db ea key).2.1.cmt ea (canonicalRepeatable db ea) =
          encode (eraseTM (mergedMap db ea) key)) := by
  refine ⟨?_, ?_, ?_, ?_⟩
  · rw [canonicalRepeatable]
    cases db.inFunc ea <;> simp
  · rw [tagAll_fst]
    rfl
  · rw [tagSet_eq_core db ea key v h1 h2 h3 h4]
    exact tagSetCore_cmt_canon db ea key v
  · intro w hw
    rw [tagDel_eq_core db ea key h1 h2 h3]
    exact tagDelCore_cmt_canon db ea key w hw

/-- C1 witness: the write path at a concrete location outside any
function targets the repeatable (canonical) slot. -/
theorem claim_C1_witness :
    (tagSet dbEmpty 0 kC (some (vInt 1))).2.1.cmt 0 (canonicalRepeatable dbEmpty 0) =
      encode (setTM (mergedMap dbEmpty 0) kC (vInt 1)) :=
  (claim_C1 dbEmpty 0 kC (vInt 1) (by decide) (by decide) (by decide) (by decide)).2.2.1

/-- C2 counterexample: at a location with a display color and disjoint
slot blobs, `tag(ea)` does not return the (bare) union of the two
decoded mappings — the implicit `__color__` tag is overlaid on top. -/
theorem claim_C2_counterexample :
    ¬((tagAll dbC2x 0).1 =
      updateMap (decode (dbC2x.cmt 0 false)) (decode (dbC2x.cmt 0 true))) := by decide

/-- C2 (amended): `tag(ea)` decodes both slots; the conflict flag is
logged exactly when the key sets intersect; the merge lets the canonical
slot win on overlapping keys and is the union elsewhere; the returned
mapping is that merge overlaid with the implicit tags (which never
override a present key); the function is total, so the conflict never
raises. -/
theorem claim_C2 (db : DB) (ea : Nat) :
    ((tagAll db ea).2 = true ↔
      ∃ k, containsTM (decode (db.cmt ea false)) k = true ∧
        containsTM (decode (db.cmt ea true)) k = true)
    ∧ (tagAll db ea).1 = overlayImplicit db ea (mergedMap db ea)
    ∧ (∀ k, containsTM (decode (db.cmt ea (canonicalRepeatable db ea))) k = true →
        lookupTM (mergedMap db ea) k =
          lookupTM (decode (db.cmt ea (canonicalRepeatable db ea))) k)
    ∧ (∀ k, containsTM (decode (db.cmt ea (canonicalRepeatable db ea))) k = false →
        lookupTM (mergedMap db ea) k =
          lookupTM (decode (db.cmt ea (!(canonicalRepeatable db ea)))) k) := by
  refine ⟨?_, tagAll_fst db ea, lookupTM_mergedMap_canon db ea, lookupTM_mergedMap_other db ea⟩
  rw [tagAll_snd, List.any_eq_true]
  constructor
  · rintro ⟨k, hk, hdec⟩
    exact ⟨k, (containsTM_iff_mem _ _).2 hk,
      (containsTM_iff_mem _ _).2 (of_decide_eq_true hdec)⟩
  · rintro ⟨k, hc1, hc2⟩
    exact ⟨k, (containsTM_iff_mem _ _).1 hc1,
      decide_eq_true ((containsTM_iff_mem _ _).1 hc2)⟩

/-- C3: `select(And={A,B})` yields exactly the indexed locations whose
tag mapping contains both `A` and `B`, paired with the entries for `A`
and `B`; `select(Or={A,B})` yields exactly those whose key set meets
`{A,B}`, paired with the matching entries; empty results are skipped. -/
theorem claim_C3 (db : DB) (A B : Str) :
    selectRun db [] [A, B] =
      db.gAddrs.filterMap (fun ea =>
        if containsTM (selTagMap db ea) A = true ∧ containsTM (selTagMap db ea) B = true then
          some (ea, filterKeysTM (selTagMap db ea) (fun k => decide (k = A ∨ k = B)))
        else none)
    ∧ selectRun db [A, B] [] =
      db.gAddrs.filterMap (fun ea =>
        if containsTM (selTagMap db ea) A = true ∨ containsTM (selTagMap db ea) B = true then
          some (ea, filterKeysTM (selTagMap db ea) (fun k => decide (k = A ∨ k = B)))
        else none) := by
  constructor
  · rw [selectRun, if_neg (by simp)]
    exact filterMapCongr _ _ _ (fun ea _ => selEntry_and db A B ea)
  · rw [selectRun, if_neg (by simp)]
    exact filterMapCongr _ _ _ (fun ea _ => selEntry_or db A B ea)

/-- C4 counterexample: overwriting an existing key at a location whose
other slot also holds tag data performs two comment-slot writes and
zero Reference Index updates — not exactly one of each. -/
theorem claim_C4_counterexample :
    ¬(countP isSlotWrite (tagSet dbBoth 0 kC (some (vInt 3))).2.2 = 1 ∧
      countP isIdxOp (tagSet dbBoth 0 kC (some (vInt 3))).2.2 = 1) := by decide

/-- C4 (amended): a non-implicit set writes the canonical slot and
additionally clears the non-canonical slot exactly when it decoded
non-empty (one or two slot writes); it performs exactly one Reference
Index update when the key is new and none when it overwrites; a
successful delete performs one or two slot writes likewise and exactly
one Reference Index update; no call ever touches both the Global and
the Contents index, and the index touched is Contents exactly when the
location lies within a function (the scope is fixed once per call). -/
theorem claim_C4 (db : DB) (ea : Nat) (key : Str) (v : TagValue)
    (h1 : key ≠ nameKey) (h2 : key ≠ preKey) (h3 : key ≠ sufKey) (h4 : key ≠ colorKey) :
    (countP isSlotWrite (tagSet db ea key (some v)).2.2 =
      (if (decode (db.cmt ea (!(canonicalRepeatable db ea)))).isEmpty then 1 else 2))
    ∧ (countP isIdxOp (tagSet db ea key (some v)).2.2 =
      (if (lookupTM (mergedMap db ea) key).isNone then 1 else 0))
    ∧ ¬(((tagSet db ea key (some v)).2.2.any isGlobalOp = true) ∧
        ((tagSet db ea key (some v)).2.2.any isContentsOp = true))
    ∧ ((tagSet db ea key (some v)).2.2.any isContentsOp = true → db.inFunc ea = true)
    ∧ ((tagSet db ea key (some v)).2.2.any isGlobalOp = true → db.inFunc ea = false)
    ∧ (∀ w, lookupTM (mergedMap db ea) key = some w →
        countP isSlotWrite (tagDel db ea key).2.2 =
          (if (decode (db.cmt ea (!(canonicalRepeatable db ea)))).isEmpty then 1 else 2)
        ∧ countP isIdxOp (tagDel db ea key).2.2 = 1
        ∧ ¬(((tagDel db ea key).2.2.any isGlobalOp = true) ∧
            ((tagDel db ea key).2.2.any isContentsOp = true))
        ∧ ((tagDel db ea key).2.2.any isContentsOp = true → db.inFunc ea = true)
        ∧ ((tagDel db ea key).2.2.any isGlobalOp = true → db.inFunc ea = false)) := by
  rw [tagSet_eq_core db ea key v h1 h2 h3 h4, tagSetCore_effects]
  refine ⟨?_, ?_, ?_, ?_, ?_, ?_⟩
  · cases he : (decode (db.cmt ea (!(canonicalRepeatable db ea)))).isEmpty <;>
      cases hn : (lookupTM (mergedMap db ea) key).isNone <;>
      cases hf : db.inFunc ea <;>
      simp [he, hn, hf, countP, isSlotWrite]
  · cases he : (decode (db.cmt ea (!(canonicalRepeatable db ea)))).isEmpty <;>
      cases hn : (lookupTM (mergedMap db ea) key).isNone <;>
      cases hf : db.inFunc ea <;>
      simp [he, hn, hf, countP, isIdxOp]
  · cases he : (decode (db.cmt ea (!(canonicalRepeatable db ea)))).isEmpty <;>
      cases hn : (lookupTM (mergedMap db ea) key).isNone <;>
      cases hf : db.inFunc ea <;>
      simp [he, hn, hf, isGlobalOp, isContentsOp, isSlotWrite]
  · cases he : (decode (db.cmt ea (!(canonicalRepeatable db ea)))).isEmpty <;>
      cases hn : (lookupTM (mergedMap db ea) key).isNone <;>
      cases hf : db.inFunc ea <;>
      simp [he, hn, hf, isGlobalOp, isContentsOp, isSlotWrite]
  · cases he : (decode (db.cmt ea (!(canonicalRepeatable db ea)))).isEmpty <;>
      cases hn : (lookupTM (mergedMap db ea) key).isNone <;>
      cases hf : db.inFunc ea <;>
      simp [he, hn, hf, isGlobalOp, isContentsOp, isSlotWrite]
  · intro w hw
    rw [tagDel_eq_core db ea key h1 h2 h3, tagDelCore_effects db ea key w hw]
    refine ⟨?_, ?_, ?_, ?_, ?_⟩ <;>
      (cases he : (decode (db.cmt ea (!(canonicalRepeatable db ea)))).isEmpty <;>
        cases hf : db.inFunc ea <;>
        simp [he, hf, countP, isSlotWrite, isIdxOp, isGlobalOp, isContentsOp])

/-- C4 witness: a fresh set at an empty location performs exactly one
slot write. -/
theorem claim_C4_witness :
    countP isSlotWrite (tagSet dbEmpty 0 kC (some (vInt 1))).2.2 = 1 := by
  have h := (claim_C4 dbEmpty 0 kC (vInt 1) (by decide) (by decide) (by decide) (by decide)).1
  rw [h]
  decide

/-- C5: for a non-implicit key, the delete fails with `MissingTagError`
exactly when the key is absent from `tag(ea)`; on success it returns the
removed value; a successful delete followed by another delete of the
same key (with no intervening write) always fails. -/
theorem claim_C5 (db : DB) (ea : Nat) (key : Str)
    (h1 : key ≠ nameKey) (h2 : key ≠ preKey) (h3 : key ≠ sufKey) (h4 : key ≠ colorKey) :
    ((tagDel db ea key).1 = Except.error TagErr.missingTag ↔
      lookupTM (tagAll db ea).1 key = none)
    ∧ (∀ w, lookupTM (tagAll db ea).1 key = some w →
        (tagDel db ea key).1 = Except.ok (some w))
    ∧ (∀ r db2 e2, tagDel db ea key = (Except.ok r, db2, e2) →
        (tagDel db2 ea key).1 = Except.error TagErr.missingTag) := by
  have hAll : lookupTM (tagAll db ea).1 key = lookupTM (mergedMap db ea) key := by
    rw [tagAll_fst]
    exact lookupTM_overlay_ne db ea _ key h1 h2 h3 h4
  rw [tagDel_eq_core db ea key h1 h2 h3, hAll]
  refine ⟨?_, ?_, ?_⟩
  · rw [tagDelCore_fst]
    cases hl : lookupTM (mergedMap db ea) key
    · simp
    · simp
  · intro w hw
    rw [tagDelCore_fst, hw]
    simp
  · intro r db2 e2 heq
    cases hl : lookupTM (mergedMap db ea) key with
    | none =>
      exfalso
      have h5 := congrArg (fun t => t.1) heq
      simp only [tagDelCore_fst, hl] at h5
      exact absurd h5 (by simp)
    | some w =>
      have hdb2 : db2 = (tagDelCore db ea key).2.1 := by rw [heq]
      have hinf : db2.inFunc = db.inFunc := by
        rw [hdb2]
        exact tagDelCore_inFunc db ea key
      have hcanon : canonicalRepeatable db2 ea = canonicalRepeatable db ea := by
        rw [canonicalRepeatable, canonicalRepeatable, hinf]
      have hx1 : decode (db2.cmt ea (canonicalRepeatable db2 ea)) =
          eraseTM (mergedMap db ea) key := by
        rw [hcanon, hdb2, tagDelCore_cmt_canon db ea key w hl,
          decode_encode _ (wfTM_eraseTM _ _ (wfTM_mergedMap db ea))]
      have hx2 : decode (db2.cmt ea (!(canonicalRepeatable db2 ea))) = [] := by
        rw [hcanon, hdb2]
        exact tagDelCore_noncanon db ea key w hl
      have hm : mergedMap db2 ea = eraseTM (mergedMap db ea) key := by
        rw [mergedMap, hx1, hx2, updateMap_nil]
      have hnone : lookupTM (mergedMap db2 ea) key = none := by
        rw [hm, lookupTM_eraseTM, if_pos rfl]
      rw [tagDel_eq_core db2 ea key h1 h2 h3, tagDelCore_fst, hnone]
      rfl

/-- C5 witness: deleting the single tag at a concrete location returns
its value. -/
theorem claim_C5_witness :
    (tagDel dbOne 0 kC).1 = Except.ok (some (vInt 1)) :=
  (claim_C5 dbOne 0 kC (by decide) (by decide) (by decide)
    (by decide)).2.1 (vInt 1) (by decide)

/-- C6 (code bug): at a location whose display color is set,
`tag(ea)` reports `__color__`, yet `tag(ea, "__color__", None)` does
not dispatch to the color clear operation — it enters the generic
comment-blob delete path, performs no effect and raises
`MissingTagError` (the delete dispatch at `base/database.py` lines
1592-1598 handles only `__name__`, `__extra_prefix__` and
`__extra_suffix__`, while the set dispatch at lines 1546-1554 and the
read synthesis at lines 1505-1513 handle `__color__` as well). -/
theorem claim_C6 :
    lookupTM (tagAll dbColor 0).1 colorKey = some (vInt 7)
    ∧ (tagDel dbColor 0 colorKey).1 = Except.error TagErr.missingTag
    ∧ (tagDel dbColor 0 colorKey).2.2 = []
    ∧ (tagSet dbColor 0 colorKey (some (vInt 3))).2.2 = [Eff.colorSet 0 (some (vInt 3))] := by
  refine ⟨?_, ?_, ?_, ?_⟩ <;> rfl

/-- C7: whenever a Contents-index entry's recorded key-set disagrees
with the live blob, `selectcontents` answers the query from the live
blob's key-set alone, flags the warning (and reports the address among
the warned ones); the mismatch raises no error, and the function is
read-only (it returns no state, mirroring that the source performs no
index write). -/
theorem claim_C7 (db : DB) (Or And : List Str) (ea : Nat) (rc : List Str)
    (hmem : (ea, rc) ∈ db.cIter)
    (hne : setEqL (keysTM (db.cLive ea)) rc = false) :
    scEntry db Or And (ea, rc) = (liveAnswer db Or And ea, true)
    ∧ ea ∈ (selectcontentsRun db Or And).2 := by
  constructor
  · simp only [scEntry, liveAnswer, contentsName, hne, Bool.not_false]
  · rw [selectcontentsRun]
    refine List.mem_map.2 ⟨(ea, rc), List.mem_filter.2 ⟨hmem, ?_⟩, rfl⟩
    simp only [scEntry, hne, Bool.not_false]

/-- C7 witness: a concrete desynchronized entry is answered from the
live blob and warned about. -/
theorem claim_C7_witness :
    scEntry dbDesync [kB] [] (0, [kA]) = (liveAnswer dbDesync [kB] [] 0, true)
    ∧ 0 ∈ (selectcontentsRun dbDesync [kB] []).2 :=
  claim_C7 dbDesync [kB] [] 0 [kA] (by decide) (by decide)

/-- C8: for every well-formed tag mapping whose encoded form fits the
comment-slot size limit, decoding the encoding gives the mapping back,
for every value type the codec supports. -/
theorem claim_C8 (m : TagMap) (hwf : wfTM m) (_hfit : (encode m).length ≤ slotLimit) :
    decode (encode m) = m :=
  decode_encode m hwf

/-- C8 witness: the round-trip on a mapping exercising every supported
value type (text, integer, boolean, float, sequence). -/
theorem claim_C8_witness : decode (encode mAll) = mAll :=
  claim_C8 mAll (by decide) (by decide)

/-- C9: after a completed non-implicit set or delete, the non-canonical
slot decodes to the empty mapping, and the canonical slot holds exactly
the encoding of the merged mapping (canonical slot winning) with the key
updated or removed. -/
theorem claim_C9 (db : DB) (ea : Nat) (key : Str) (v : TagValue)
    (h1 : key ≠ nameKey) (h2 : key ≠ preKey) (h3 : key ≠ sufKey) (h4 : key ≠ colorKey) :
    (decode ((tagSet db ea key (some v)).2.1.cmt ea (!(canonicalRepeatable db ea))) = []
     ∧ (tagSet db ea key (some v)).2.1.cmt ea (canonicalRepeatable db ea) =
        encode (setTM (mergedMap db ea) key v))
    ∧ (∀ w, lookupTM (mergedMap db ea) key = some w →
       decode ((tagDel db ea key).2.1.cmt ea (!(canonicalRepeatable db ea))) = []
       ∧ (tagDel db ea key).2.1.cmt ea (canonicalRepeatable db ea) =
          encode (eraseTM (mergedMap db ea) key)) := by
  rw [tagSet_eq_core db ea key v h1 h2 h3 h4, tagDel_eq_core db ea key h1 h2 h3]
  exact ⟨⟨tagSetCore_noncanon db ea key v, tagSetCore_cmt_canon db ea key v⟩,
    fun w hw => ⟨tagDelCore_noncanon db ea key w hw, tagDelCore_cmt_canon db ea key w hw⟩⟩

/-- C9 witness: after a set at a location whose non-canonical slot held
tag data, that slot decodes to the empty mapping. -/
theorem claim_C9_witness :
    decode ((tagSet dbBoth 0 kC (some (vInt 3))).2.1.cmt 0
      (!(canonicalRepeatable dbBoth 0))) = [] :=
  ((claim_C9 dbBoth 0 kC (vInt 3) (by decide) (by decide) (by decide) (by decide)).1).1

/-- C10: when the decoded comment blob itself contains one of the four
implicit keys, `tag(ea)` returns the blob's stored value for it (the
overlay uses `setdefault`); and when the corresponding attribute is
absent (no name or the listed flag unset, no extra prefix/suffix, no
color), the overlay leaves that key's lookup unchanged. -/
theorem claim_C10 (db : DB) (ea : Nat) :
    (∀ w, lookupTM (mergedMap db ea) nameKey = some w →
      lookupTM (tagAll db ea).1 nameKey = some w)
    ∧ (∀ w, lookupTM (mergedMap db ea) preKey = some w →
      lookupTM (tagAll db ea).1 preKey = some w)
    ∧ (∀ w, lookupTM (mergedMap db ea) sufKey = some w →
      lookupTM (tagAll db ea).1 sufKey = some w)
    ∧ (∀ w, lookupTM (mergedMap db ea) colorKey = some w →
      lookupTM (tagAll db ea).1 colorKey = some w)
    ∧ ((db.nameAt ea = none ∨ db.nameFlag ea = false) →
      lookupTM (tagAll db ea).1 nameKey = lookupTM (mergedMap db ea) nameKey)
    ∧ (db.preAt ea = none →
      lookupTM (tagAll db ea).1 preKey = lookupTM (mergedMap db ea) preKey)
    ∧ (db.sufAt ea = none →
      lookupTM (tagAll db ea).1 sufKey = lookupTM (mergedMap db ea) sufKey)
    ∧ (db.colorAt ea = none →
      lookupTM (tagAll db ea).1 colorKey = lookupTM (mergedMap db ea) colorKey) := by
  rw [tagAll_fst]
  refine ⟨?_, ?_, ?_, ?_, ?_, ?_, ?_, ?_⟩
  · intro w hw
    rw [lookupTM_overlay_name, hw]
  · intro w hw
    rw [lookupTM_overlay_pre, hw]
  · intro w hw
    rw [lookupTM_overlay_suf, hw]
  · intro w hw
    rw [lookupTM_overlay_color, hw]
  · intro h
    rw [lookupTM_overlay_name]
    cases hl : lookupTM (mergedMap db ea) nameKey
    · rcases h with h | h
      · rw [h]
      · cases hn : db.nameAt ea
        · rfl
        · rw [h]
          simp
    · rfl
  · intro h
    rw [lookupTM_overlay_pre]
    cases hl : lookupTM (mergedMap db ea) preKey
    · exact h
    · rfl
  · intro h
    rw [lookupTM_overlay_suf]
    cases hl : lookupTM (mergedMap db ea) sufKey
    · exact h
    · rfl
  · intro h
    rw [lookupTM_overlay_color]
    cases hl : lookupTM (mergedMap db ea) colorKey
    · exact h
    · rfl
